import Mathlib

/-!
Verification of the bank-reserves batch simulation (`batch_run.py`).

The data-collector functions (`compute_gini`, `mean_money`, `standart_deviation`,
the class counts and the totals) are embedded over a state type holding exactly
what they read: the scheduler agent list and the rich threshold.  Python numbers
are modelled as rationals, and a Python `ZeroDivisionError` or a missing
attribute is modelled by `Option`/`Except`.  The `Bank` and `Person` agent
classes live in `bank_reserves/agents.py`, outside this repository, so the parts
of the development that need them are modelled from the specification and say so
in their doc comments.
-/

namespace BankSim

/-- Economic state of a `Person` agent as the metric functions read it:
`savings` is the bank deposit, `wallet` the spendable cash and `loans` the
outstanding debt. -/
structure Person where
  savings : ℚ
  wallet : ℚ
  loans : ℚ
deriving DecidableEq

/-- The scheduler as the metric functions see it: `model.schedule.agents` is
its list of live agents. -/
structure Schedule where
  agents : List Person
deriving DecidableEq

/-- The part of `BankReservesModel` state that the data-collector functions
read: the scheduler and the `rich_threshold` parameter. -/
structure MetricsModel where
  rich_threshold : ℚ
  schedule : Schedule
deriving DecidableEq

/-- Embedding of `get_total_savings`: the sum of the savings of all agents
(`np.sum` of the comprehension, which is `0` on an empty list). -/
def get_total_savings (model : MetricsModel) : ℚ :=
  (model.schedule.agents.map fun a => a.savings).sum

/-- Embedding of `get_total_wallets`: the sum of the wallets of all agents. -/
def get_total_wallets (model : MetricsModel) : ℚ :=
  (model.schedule.agents.map fun a => a.wallet).sum

/-- Embedding of `get_total_money`: wallet total plus savings total. -/
def get_total_money (model : MetricsModel) : ℚ :=
  get_total_wallets model + get_total_savings model

/-- Embedding of `get_total_loans`: the sum of the loans of all agents. -/
def get_total_loans (model : MetricsModel) : ℚ :=
  (model.schedule.agents.map fun a => a.loans).sum

/-- Embedding of `get_num_rich_agents`: the number of agents whose savings
exceed `model.rich_threshold`. -/
def get_num_rich_agents (model : MetricsModel) : ℕ :=
  (model.schedule.agents.filter fun a => decide (a.savings > model.rich_threshold)).length

/-- Embedding of `get_num_poor_agents`: the number of agents whose loans
exceed the fixed constant `10`. -/
def get_num_poor_agents (model : MetricsModel) : ℕ :=
  (model.schedule.agents.filter fun a => decide (a.loans > 10)).length

/-- Embedding of `get_num_mid_agents`: the number of agents with loans below
`10` and savings below `model.rich_threshold`. -/
def get_num_mid_agents (model : MetricsModel) : ℕ :=
  (model.schedule.agents.filter fun a =>
    decide (a.loans < 10 ∧ a.savings < model.rich_threshold)).length

/-- Result of a Python float computation: a finite value, or one of the
non-finite IEEE values that NumPy arithmetic produces silently. -/
inductive PyFloat where
  | finite (q : ℚ)
  | nan
  | posInf
  | negInf
deriving DecidableEq

/-- True division whose denominator is a NumPy scalar (`get_total_money` is
built from `np.sum`, so `N * get_total_money(model)` is one): dividing by a
zero NumPy scalar does not raise `ZeroDivisionError`; it emits a
`RuntimeWarning` and yields `nan` for `0 / 0` and a signed infinity for a
nonzero numerator.  A nonzero denominator gives the exact quotient. -/
def pydiv (num den : ℚ) : PyFloat :=
  if den = 0 then
    if num = 0 then PyFloat.nan
    else if 0 < num then PyFloat.posInf
    else PyFloat.negInf
  else PyFloat.finite (num / den)

/-- The Python comparison `B == 0` on a float result: false for `nan` and for
the infinities. -/
def PyFloat.eqZero : PyFloat → Bool
  | PyFloat.finite q => decide (q = 0)
  | _ => false

/-- The return expression `1 + (1/N) - 2*B` of `compute_gini` under float
semantics for `N ≠ 0`: exact arithmetic on a finite `B`, `nan` propagating,
and a sign flip on an infinite `B`. -/
def giniOfB (N : ℕ) : PyFloat → PyFloat
  | PyFloat.finite b => PyFloat.finite (1 + 1 / (N : ℚ) - 2 * b)
  | PyFloat.nan => PyFloat.nan
  | PyFloat.posInf => PyFloat.negInf
  | PyFloat.negInf => PyFloat.posInf

/-- Python exception kinds distinguished by this embedding. -/
inductive PyExc where
  | attributeError
  | zeroDivisionError
deriving DecidableEq

/-- Embedding of `compute_gini`.  The source sorts the savings values, puts
`N = len(model.schedule.agents)` and computes the enumerate-sum of
`xi * (N - i)` divided by `N * get_total_money(model)`.  The denominator is a
NumPy scalar, so a zero denominator silently yields a non-finite `B` (`nan`
at `0 / 0`) instead of raising; the guard `if B == 0` is false for such a
`B`, and the return expression `1 + (1/N) - 2*B` then evaluates `1 / N` — a
plain-int division, raising `ZeroDivisionError` only when the population is
empty — and otherwise propagates the non-finite `B`. -/
def compute_gini (model : MetricsModel) : Except PyExc PyFloat :=
  let x := List.insertionSort (· ≤ ·) (model.schedule.agents.map fun a => a.savings)
  let N : ℕ := model.schedule.agents.length
  let B := pydiv ((x.enum.map fun p => p.2 * ((N : ℚ) - (p.1 : ℚ))).sum)
    ((N : ℚ) * get_total_money model)
  if B.eqZero then Except.ok (PyFloat.finite 0)
  else if N = 0 then Except.error PyExc.zeroDivisionError
  else Except.ok (giniOfB N B)

/-- A model with one agent holding zero savings, wallet and loans, so that the
total money is `0`. -/
def zeroMoneyModel : MetricsModel :=
  { rich_threshold := 10
    schedule := { agents := [{ savings := 0, wallet := 0, loans := 0 }] } }

/-- The Gini formula exactly as the spec words it: with `x` the sorted savings
sequence, `N` the population size and `M` the total money, put
`B = (Σ_{i<N} x_i (N - i)) / (N M)` with zero-based `i`; the Gini value is
`1 + 1/N - 2 B` unless `B = 0`, in which case it is `0`. -/
def gini_spec (model : MetricsModel) : ℚ :=
  let x := List.insertionSort (· ≤ ·) (model.schedule.agents.map fun a => a.savings)
  let N : ℕ := model.schedule.agents.length
  let M : ℚ := get_total_money model
  let B : ℚ := (∑ i ∈ Finset.range N, x.getD i 0 * ((N : ℚ) - (i : ℚ))) / ((N : ℚ) * M)
  if B = 0 then 0 else 1 + 1 / (N : ℚ) - 2 * B

/-- A model with a single agent holding savings 1 and no wallet money. -/
def simpleModel : MetricsModel :=
  { rich_threshold := 10
    schedule := { agents := [{ savings := 1, wallet := 0, loans := 0 }] } }

/-- A model with one agent holding savings 1 and wallet 100. -/
def walletHeavyModel : MetricsModel :=
  { rich_threshold := 10
    schedule := { agents := [{ savings := 1, wallet := 100, loans := 0 }] } }

/-- Embedding of `mean_money`: a running sum of the savings of the agents,
divided at the end by the number of agents; the division raises
`ZeroDivisionError` on an empty population, modelled by `none`. -/
def mean_money (model : MetricsModel) : Option ℚ :=
  if model.schedule.agents.length = 0 then none
  else some ((model.schedule.agents.foldl (fun acc a => acc + a.savings) 0) /
    (model.schedule.agents.length : ℚ))

/-- The radicand `sd` that `standart_deviation` hands to `cmath.sqrt`: the
running sum of squared deviations from `mean_money`, divided by the number of
agents. -/
def standart_deviation_sd (model : MetricsModel) : Option ℚ :=
  (mean_money model).map fun mean =>
    (model.schedule.agents.foldl (fun acc a => acc + (a.savings - mean) ^ 2) 0) /
      (model.schedule.agents.length : ℚ)

/-- Model of `cmath.sqrt` on the real (rational) inputs it receives here: the
principal complex square root of a real number, landing on the non-negative
real axis for non-negative inputs and on the positive imaginary axis
otherwise. -/
noncomputable def cmath_sqrt (q : ℚ) : ℂ :=
  if 0 ≤ q then ((Real.sqrt (q : ℝ) : ℝ) : ℂ)
  else Complex.I * ((Real.sqrt ((-q : ℚ) : ℝ) : ℝ) : ℂ)

/-- Embedding of `standart_deviation`: `cmath.sqrt` applied to the radicand,
so the value returned to the data collector is a complex number. -/
noncomputable def standart_deviation (model : MetricsModel) : Option ℂ :=
  (standart_deviation_sd model).map cmath_sqrt

/-- Population mean of the savings values, as the spec words it. -/
def mean_spec (model : MetricsModel) : ℚ :=
  get_total_savings model / (model.schedule.agents.length : ℚ)

/-- Population variance of the savings values: the sum of squared deviations
from the mean divided by N (not N - 1), as the spec words it. -/
def variance_spec (model : MetricsModel) : ℚ :=
  ((model.schedule.agents.map fun a => (a.savings - mean_spec model) ^ 2).sum) /
    (model.schedule.agents.length : ℚ)

/-- Modelled from the spec: the `Bank` class lives in `bank_reserves/agents.py`,
which is not part of this repository; per §4.2 it tracks the reserve policy
parameter and the aggregate deposit and loan figures. -/
structure Bank where
  reserve_percent : ℚ
  total_deposits : ℚ
  total_loans : ℚ
deriving DecidableEq

/-- Reserves the bank must keep: `total_deposits * reserve_percent / 100`. -/
def Bank.reserves_required (b : Bank) : ℚ :=
  b.total_deposits * b.reserve_percent / 100

/-- Lendable capacity: `total_deposits - reserves_required - total_loans`. -/
def Bank.capacity (b : Bank) : ℚ :=
  b.total_deposits - b.reserves_required - b.total_loans

/-- Modelled from the spec (§4.2): `deposit` increases the aggregate deposit
figure; it always succeeds. -/
def Bank.deposit (b : Bank) (amount : ℚ) : Bank :=
  { b with total_deposits := b.total_deposits + amount }

/-- Modelled from the spec (§4.2): `request_loan` grants the full amount when
the capacity covers it, only the remaining capacity when
`0 < capacity < amount`, and nothing when the capacity is not positive; it
returns the granted amount together with the new bank state. -/
def Bank.request_loan (b : Bank) (amount : ℚ) : ℚ × Bank :=
  let granted := if b.capacity ≤ 0 then 0 else min amount b.capacity
  (granted, { b with total_loans := b.total_loans + granted })

/-- Modelled from the spec (§4.2): `repay_loan` caps the amount at the loans
of the person and decreases the aggregate loan figure by the capped amount. -/
def Bank.repay_loan (b : Bank) (personLoans amount : ℚ) : ℚ × Bank :=
  let capped := min amount personLoans
  (capped, { b with total_loans := b.total_loans - capped })

/-- The reserve invariant of the spec:
`total_loans + total_deposits * reserve_percent / 100 ≤ total_deposits`. -/
def Bank.reserve_invariant (b : Bank) : Prop :=
  b.total_loans + b.total_deposits * b.reserve_percent / 100 ≤ b.total_deposits

/-- Modelled from the spec: full state of a `Person` agent (the `Person`
class is in `bank_reserves/agents.py`, outside this repository): identity,
grid position, and the three balances. -/
structure PersonState where
  unique_id : ℕ
  pos : ℕ × ℕ
  wallet : ℚ
  savings : ℚ
  loans : ℚ
deriving DecidableEq

/-- The keyword parameters of `BankReservesModel.__init__`, with the default
values of the source. -/
structure ModelParams where
  height : ℕ := 20
  width : ℕ := 20
  init_people : ℕ := 2
  rich_threshold : ℚ := 10
  trade_threshold : ℚ := 15
  reserve_percent : ℚ := 50

/-- State of a `BankReservesModel` instance: exactly the attributes assigned
during `__init__`, plus `run_time`, an `Option` that stays `none` because no
code path ever assigns that attribute.  The seeded random source of the model
is a stream `rng` with `rngIdx` the next unconsumed position; `agents` is the
scheduler agent list and `grid` the multigrid content as (id, x, y) records. -/
structure BankReservesModel where
  uid : ℕ
  height : ℕ
  width : ℕ
  init_people : ℕ
  rich_threshold : ℚ
  trade_threshold : ℚ
  reserve_percent : ℚ
  bank : Bank
  agents : List PersonState
  grid : List (ℕ × ℕ × ℕ)
  rng : ℕ → ℕ
  rngIdx : ℕ
  run_time : Option ℕ
  running : Bool

/-- Embedding of `BankReservesModel.__init__`: draws the next uid from the
class-wide `id_gen` counter (returned incremented), stores the parameters,
creates the bank, and creates exactly `init_people` Person agents, each at a
random grid position (two stream draws per agent, reduced modulo the width
and the height as `random.randrange` does), placing each on the grid and
adding it to the schedule.  `run_time` is never assigned.  The Person
constructor itself is outside this repository and is modelled from the spec:
zero/seed balances and a randomized position. -/
def initModel (counter : ℕ) (p : ModelParams) (r : ℕ → ℕ) : BankReservesModel × ℕ :=
  let people : List PersonState := (List.range p.init_people).map fun i =>
    { unique_id := i
      pos := (r (2 * i) % p.width, r (2 * i + 1) % p.height)
      wallet := 0
      savings := 0
      loans := 0 }
  ({ uid := counter
     height := p.height
     width := p.width
     init_people := p.init_people
     rich_threshold := p.rich_threshold
     trade_threshold := p.trade_threshold
     reserve_percent := p.reserve_percent
     bank := { reserve_percent := p.reserve_percent, total_deposits := 0, total_loans := 0 }
     agents := people
     grid := people.map fun q => (q.unique_id, q.pos.1, q.pos.2)
     rng := r
     rngIdx := 2 * p.init_people
     run_time := none
     running := true }, counter + 1)

/-- Modelled from the spec (§4.1): Chebyshev adjacency on the torus — two
cells are neighbors when each coordinate differs by at most 1 with
wraparound. -/
def toroidalAdj (width height : ℕ) (p q : ℕ × ℕ) : Bool :=
  decide (min ((p.1 + width - q.1) % width) ((q.1 + width - p.1) % width) ≤ 1) &&
  decide (min ((p.2 + height - q.2) % height) ((q.2 + height - p.2) % height) ≤ 1)

/-- Modelled from the spec (§4.3): one activation of `Person.step` (the
`Person` class is outside this repository).  The agent moves to a random
adjacent cell; then it deposits its wallet excess above the trade threshold,
or requests a loan restoring a minimum operating balance of 10 when its
wallet is below that; then it gives a fixed trade amount of 5 (clamped to its
wallet) to the first eligible adjacent partner when both wallets exceed the
trade threshold.  The amount choices the spec leaves open (§9) are fixed here
as documented constants.  Activation updates existing agents in place and
never adds or removes an agent. -/
def personStep (m : BankReservesModel) (i : ℕ) : BankReservesModel :=
  match m.agents.get? i with
  | none => m
  | some a =>
    let dx := m.rng m.rngIdx % 3
    let dy := m.rng (m.rngIdx + 1) % 3
    let newPos := ((a.pos.1 + m.width + dx - 1) % m.width,
      (a.pos.2 + m.height + dy - 1) % m.height)
    let a1 : PersonState := { a with pos := newPos }
    let grid1 := m.grid.map fun e =>
      if e.1 = a1.unique_id then (a1.unique_id, newPos.1, newPos.2) else e
    let step2 : PersonState × Bank :=
      if a1.wallet > m.trade_threshold then
        ({ a1 with wallet := m.trade_threshold
                   savings := a1.savings + (a1.wallet - m.trade_threshold) },
          m.bank.deposit (a1.wallet - m.trade_threshold))
      else if a1.wallet < 10 then
        ({ a1 with wallet := a1.wallet + (m.bank.request_loan (10 - a1.wallet)).1
                   loans := a1.loans + (m.bank.request_loan (10 - a1.wallet)).1 },
          (m.bank.request_loan (10 - a1.wallet)).2)
      else (a1, m.bank)
    let a2 := step2.1
    let agents2 := m.agents.set i a2
    let partner := (List.range agents2.length).find? fun j =>
      decide (j ≠ i) && (match agents2.get? j with
        | some q => toroidalAdj m.width m.height q.pos newPos &&
            decide (q.wallet > m.trade_threshold)
        | none => false)
    let agents3 :=
      if a2.wallet > m.trade_threshold then
        match partner with
        | none => agents2
        | some j =>
          match agents2.get? j with
          | none => agents2
          | some q =>
            (agents2.set i { a2 with wallet := a2.wallet - min 5 a2.wallet }).set j
              { q with wallet := q.wallet + min 5 a2.wallet }
      else agents2
    { m with agents := agents3, grid := grid1, bank := step2.2, rngIdx := m.rngIdx + 2 }

/-- Modelled from the spec (§4.4): a freshly shuffled permutation of the
agent indices, drawn Fisher-Yates style from the random stream `r` starting
at stream position `k`. -/
def shuffleIdx (r : ℕ → ℕ) (k : ℕ) (l : List ℕ) : List ℕ :=
  if h : l.length = 0 then []
  else
    l.getD (r k % l.length) 0 :: shuffleIdx r (k + 1) (l.eraseIdx (r k % l.length))
termination_by l.length
decreasing_by
  have hj : r k % l.length < l.length := Nat.mod_lt _ (Nat.pos_of_ne_zero h)
  simp [List.length_eraseIdx, hj]
  omega

/-- Embedding of `BankReservesModel.step`, which calls `self.schedule.step()`:
the `RandomActivation` scheduler is a mesa class outside this repository and
is modelled from the spec (§4.4): it activates every live agent once, in a
freshly shuffled random order. -/
def BankReservesModel.step (m : BankReservesModel) : BankReservesModel :=
  let order := shuffleIdx m.rng m.rngIdx (List.range m.agents.length)
  order.foldl personStep { m with rngIdx := m.rngIdx + m.agents.length }

/-- Embedding of `BankReservesModel.run_model`: it iterates over
`range(self.run_time)`, but reading `self.run_time` raises `AttributeError`
whenever the attribute was never assigned; with a value it would step that
many times. -/
def run_model (m : BankReservesModel) : Except PyExc BankReservesModel :=
  match m.run_time with
  | none => Except.error PyExc.attributeError
  | some t => Except.ok (BankReservesModel.step^[t] m)

/-- A sequence of `BankReservesModel` constructions within one process,
threading the class-wide `id_gen` counter: the counter value `c` is handed to
the first construction and each construction increments it.  The parameters
and random stream of each trial may differ and are indexed by the counter. -/
def constructFrom (ps : ℕ → ModelParams) (rs : ℕ → ℕ → ℕ) (c : ℕ) :
    ℕ → List BankReservesModel
  | 0 => []
  | k + 1 => (initModel c (ps c) (rs c)).1 :: constructFrom ps rs (c + 1) k

/-- A whole process run of `k` constructions: `id_gen = itertools.count(1)`
starts the shared counter at 1 and it is never reset. -/
def constructRun (ps : ℕ → ModelParams) (rs : ℕ → ℕ → ℕ) (k : ℕ) :
    List BankReservesModel :=
  constructFrom ps rs 1 k

/-- Fallback model used by `getD` in statements about list indexing. -/
def fallbackModel : BankReservesModel := (initModel 0 {} fun _ => 0).1

/-- C2: an agent with loans exactly `10` and savings below the rich threshold
satisfies neither the poor filter (`loans > 10`) nor the middle filter
(`loans < 10 and savings < rich_threshold`), so appending such an agent to the
population changes neither `get_num_poor_agents` nor `get_num_mid_agents`: the
agent is counted in neither class and the class counts do not cover it. -/
theorem classification_gap (rt : ℚ) (l : List Person) (a : Person)
    (h10 : a.loans = 10) (_hs : a.savings < rt) :
    ¬ a.loans > 10 ∧ ¬ (a.loans < 10 ∧ a.savings < rt) ∧
    get_num_poor_agents ⟨rt, ⟨l ++ [a]⟩⟩ = get_num_poor_agents ⟨rt, ⟨l⟩⟩ ∧
    get_num_mid_agents ⟨rt, ⟨l ++ [a]⟩⟩ = get_num_mid_agents ⟨rt, ⟨l⟩⟩ := by
  refine ⟨by simp [h10], by simp [h10], ?_, ?_⟩ <;>
    simp [get_num_poor_agents, get_num_mid_agents, List.filter_append, h10]

/-- Witness for C2 at a concrete agent with loans `10` and savings `5`,
appended to a one-agent population with rich threshold `10`. -/
theorem classification_gap_witness :
    ¬ (Person.mk 5 0 10).loans > 10 ∧
    ¬ ((Person.mk 5 0 10).loans < 10 ∧ (Person.mk 5 0 10).savings < 10) ∧
    get_num_poor_agents ⟨10, ⟨[Person.mk 0 0 0] ++ [Person.mk 5 0 10]⟩⟩ =
      get_num_poor_agents ⟨10, ⟨[Person.mk 0 0 0]⟩⟩ ∧
    get_num_mid_agents ⟨10, ⟨[Person.mk 0 0 0] ++ [Person.mk 5 0 10]⟩⟩ =
      get_num_mid_agents ⟨10, ⟨[Person.mk 0 0 0]⟩⟩ :=
  classification_gap 10 [Person.mk 0 0 0] (Person.mk 5 0 10) rfl (by norm_num)

/-- Sum of a Python enumerate comprehension, with the enumeration starting at
`n`, rewritten as an indexed `Finset.range` sum over list positions. -/
theorem sum_map_enumFrom (l : List ℚ) (c : ℚ) (n : ℕ) :
    ((l.enumFrom n).map fun p => p.2 * (c - (p.1 : ℚ))).sum =
      ∑ i ∈ Finset.range l.length, l.getD i 0 * (c - ((n + i : ℕ) : ℚ)) := by
  induction l generalizing n with
  | nil => simp
  | cons a t ih =>
    rw [List.enumFrom_cons, List.map_cons, List.sum_cons, ih (n + 1), List.length_cons,
      Finset.sum_range_succ', add_comm]
    have h1 : ∀ i ∈ Finset.range t.length,
        t.getD i 0 * (c - ((n + 1 + i : ℕ) : ℚ))
          = (a :: t).getD (i + 1) 0 * (c - ((n + (i + 1) : ℕ) : ℚ)) := by
      intro i _
      rw [List.getD_cons_succ]
      have hcast : n + 1 + i = n + (i + 1) := by omega
      rw [hcast]
    rw [Finset.sum_congr rfl h1]
    simp

/-- The enumerate-sum appearing in `compute_gini`, as an indexed sum. -/
theorem sum_enum_weights (l : List ℚ) (c : ℚ) :
    ((l.enum.map fun p => p.2 * (c - (p.1 : ℚ))).sum) =
      ∑ i ∈ Finset.range l.length, l.getD i 0 * (c - (i : ℚ)) := by
  have h := sum_map_enumFrom l c 0
  rw [show l.enum = l.enumFrom 0 from rfl, h]
  exact Finset.sum_congr rfl fun i _ => by norm_num

/-- C1, counterexample: on a model whose total money is `0` (one agent, all
balances zero) `compute_gini` does not return `0`: the NumPy division
`0 / 0` silently yields `nan`, the guard `B == 0` is false for `nan`, and
the function returns `nan`. -/
theorem compute_gini_zero_money_fails :
    get_total_money zeroMoneyModel = 0 ∧
    compute_gini zeroMoneyModel = Except.ok PyFloat.nan ∧
    Except.ok PyFloat.nan ≠ (Except.ok (PyFloat.finite 0) : Except PyExc PyFloat) := by
  refine ⟨?_, ?_, by simp⟩
  · norm_num [get_total_money, get_total_savings, get_total_wallets, zeroMoneyModel]
  · norm_num [compute_gini, pydiv, PyFloat.eqZero, giniOfB, get_total_money,
      get_total_savings, get_total_wallets, zeroMoneyModel, List.enum_cons]

/-- C1, amended: for every model with a non-empty population, non-negative
savings and wallets, and total money `0`, `compute_gini` silently returns
`nan` instead of `0`: the zero denominator is a NumPy scalar, so the division
emits only a `RuntimeWarning` and yields `nan` (all savings are `0`, so the
numerator is `0` too), the `B == 0` guard does not catch `nan`, and `nan`
propagates through `1 + (1/N) - 2*B`.  No exception is raised. -/
theorem compute_gini_nan_of_total_money_eq_zero (model : MetricsModel)
    (hne : model.schedule.agents ≠ [])
    (hnn : ∀ a ∈ model.schedule.agents, 0 ≤ a.savings ∧ 0 ≤ a.wallet)
    (h : get_total_money model = 0) :
    compute_gini model = Except.ok PyFloat.nan := by
  have hN : 0 < model.schedule.agents.length := List.length_pos.mpr hne
  have hsnn : 0 ≤ get_total_savings model := by
    refine List.sum_nonneg fun q hq => ?_
    rcases List.mem_map.mp hq with ⟨a, ha, rfl⟩
    exact (hnn a ha).1
  have hwnn : 0 ≤ get_total_wallets model := by
    refine List.sum_nonneg fun q hq => ?_
    rcases List.mem_map.mp hq with ⟨a, ha, rfl⟩
    exact (hnn a ha).2
  have hs0 : (model.schedule.agents.map fun a => a.savings).sum = 0 := by
    have hmoney := h
    unfold get_total_money get_total_savings get_total_wallets at hmoney
    unfold get_total_savings at hsnn
    unfold get_total_wallets at hwnn
    linarith
  have hall : ∀ q ∈ (model.schedule.agents.map fun a => a.savings), q = 0 := by
    intro q hq
    have h1 : 0 ≤ q := by
      rcases List.mem_map.mp hq with ⟨a, ha, rfl⟩
      exact (hnn a ha).1
    have h2 : q ≤ (model.schedule.agents.map fun a => a.savings).sum := by
      refine List.single_le_sum (fun r hr => ?_) q hq
      rcases List.mem_map.mp hr with ⟨a, ha, rfl⟩
      exact (hnn a ha).1
    linarith [hs0]
  have hx0 : ∀ q ∈ List.insertionSort (· ≤ ·)
      (model.schedule.agents.map fun a => a.savings), q = 0 := fun q hq =>
    hall q ((List.perm_insertionSort (· ≤ ·) _).mem_iff.mp hq)
  have hnum : ((List.insertionSort (· ≤ ·)
      (model.schedule.agents.map fun a => a.savings)).enum.map
      fun p => p.2 * ((model.schedule.agents.length : ℚ) - (p.1 : ℚ))).sum = 0 := by
    rw [sum_enum_weights]
    refine Finset.sum_eq_zero fun i hi => ?_
    have hi2 : i < (List.insertionSort (· ≤ ·)
        (model.schedule.agents.map fun a => a.savings)).length :=
      Finset.mem_range.mp hi
    rw [List.getD_eq_getElem _ _ hi2, hx0 _ (List.getElem_mem hi2), zero_mul]
  simp only [compute_gini]
  rw [hnum, h, mul_zero]
  simp [pydiv, PyFloat.eqZero, giniOfB, hN.ne']

/-- Witness for the amended C1 theorem at the concrete model `zeroMoneyModel`. -/
theorem compute_gini_nan_witness :
    compute_gini zeroMoneyModel = Except.ok PyFloat.nan :=
  compute_gini_nan_of_total_money_eq_zero zeroMoneyModel (by simp [zeroMoneyModel])
    (by intro a ha; simp [zeroMoneyModel] at ha; simp [ha])
    (by norm_num [get_total_money, get_total_savings, get_total_wallets, zeroMoneyModel])

/-- Evaluation of `compute_gini` on the faithful branch: with a non-empty
population and positive total money the denominator is nonzero, `B` is the
finite exact quotient, and the result is the finite value of the branch on
`B = 0`. -/
theorem compute_gini_eval (model : MetricsModel)
    (hne : model.schedule.agents ≠ []) (hM : 0 < get_total_money model) :
    compute_gini model = Except.ok (PyFloat.finite
      (if (((List.insertionSort (· ≤ ·)
            (model.schedule.agents.map fun a => a.savings)).enum.map
            fun p => p.2 * ((model.schedule.agents.length : ℚ) - (p.1 : ℚ))).sum) /
            ((model.schedule.agents.length : ℚ) * get_total_money model) = 0 then 0
        else 1 + 1 / (model.schedule.agents.length : ℚ) -
          2 * ((((List.insertionSort (· ≤ ·)
            (model.schedule.agents.map fun a => a.savings)).enum.map
            fun p => p.2 * ((model.schedule.agents.length : ℚ) - (p.1 : ℚ))).sum) /
            ((model.schedule.agents.length : ℚ) * get_total_money model)))) := by
  have hN : 0 < model.schedule.agents.length := List.length_pos.mpr hne
  have hNQ : (0 : ℚ) < (model.schedule.agents.length : ℚ) := by exact_mod_cast hN
  have hden : ((model.schedule.agents.length : ℚ)) * get_total_money model ≠ 0 :=
    (mul_pos hNQ hM).ne'
  simp only [compute_gini, pydiv, if_neg hden, PyFloat.eqZero, decide_eq_true_eq]
  by_cases hq : (((List.insertionSort (· ≤ ·)
      (model.schedule.agents.map fun a => a.savings)).enum.map
      fun p => p.2 * ((model.schedule.agents.length : ℚ) - (p.1 : ℚ))).sum) /
      ((model.schedule.agents.length : ℚ) * get_total_money model) = 0
  · rw [if_pos hq, if_pos hq]
  · rw [if_neg hq, if_neg hq, if_neg hN.ne']
    simp [giniOfB]

/-- C4: on a non-empty population with positive total money, `compute_gini`
returns exactly the value of the Gini formula stated in the spec. -/
theorem compute_gini_formula (model : MetricsModel)
    (hne : model.schedule.agents ≠ []) (hM : 0 < get_total_money model) :
    compute_gini model = Except.ok (PyFloat.finite (gini_spec model)) := by
  have hx : (List.insertionSort (· ≤ ·)
      (model.schedule.agents.map fun a => a.savings)).length
      = model.schedule.agents.length := by
    rw [List.length_insertionSort, List.length_map]
  rw [compute_gini_eval model hne hM]
  simp only [gini_spec]
  rw [sum_enum_weights, hx]

/-- Witness for C4 at a one-agent model with savings 1. -/
theorem compute_gini_formula_witness :
    compute_gini simpleModel = Except.ok (PyFloat.finite (gini_spec simpleModel)) :=
  compute_gini_formula simpleModel (by simp [simpleModel])
    (by norm_num [get_total_money, get_total_savings, get_total_wallets, simpleModel])

/-- C3, counterexample: a one-agent model with savings 1 and wallet 100 has
positive total money, yet `compute_gini` returns `200/101`, which exceeds `1`:
the denominator uses the total money (wallets included) while the numerator
sums only savings, so the value is not bounded by `1`. -/
theorem compute_gini_above_one :
    0 < get_total_money walletHeavyModel ∧
    compute_gini walletHeavyModel = Except.ok (PyFloat.finite (200 / 101)) ∧
    ¬ ((200 : ℚ) / 101 ≤ 1) := by
  refine ⟨by norm_num [get_total_money, get_total_savings, get_total_wallets,
    walletHeavyModel], ?_, by norm_num⟩
  norm_num [compute_gini, pydiv, PyFloat.eqZero, giniOfB, get_total_money,
    get_total_savings, get_total_wallets, walletHeavyModel, List.enum_cons]

/-- Closed form of the descending weight sum over the rationals. -/
theorem sum_weights (N : ℕ) :
    (∑ i ∈ Finset.range N, ((N : ℚ) - (i : ℚ))) = N * (N + 1) / 2 := by
  induction N with
  | zero => simp
  | succ n ih =>
    rw [Finset.sum_range_succ]
    have h1 : ∀ i ∈ Finset.range n,
        (((n + 1 : ℕ) : ℚ) - (i : ℚ)) = ((n : ℚ) - (i : ℚ)) + 1 := by
      intro i _
      push_cast
      ring
    rw [Finset.sum_congr rfl h1, Finset.sum_add_distrib, ih]
    simp only [Finset.sum_const, Finset.card_range, nsmul_eq_mul, mul_one]
    push_cast
    ring

/-- Bounds on the branch value of the Gini computation: for a sorted list `x`
of non-negative rationals with `x.length = N > 0` and `x.sum ≤ M`, `0 < M`,
the value `if B = 0 then 0 else 1 + 1/N - 2 B` with
`B = (Σ_i x_i (N - i)) / (N M)` lies in the interval `[0, 1 + 1/N)`.  The
upper bound uses the Chebyshev sum inequality on the ascending values against
the descending weights. -/
theorem gini_value_bounds (x : List ℚ) (N : ℕ) (M : ℚ) (B : ℚ)
    (hlen : x.length = N) (hNpos : 0 < N)
    (hsorted : x.Sorted (· ≤ ·)) (hx : ∀ q ∈ x, 0 ≤ q) (hsum : x.sum ≤ M) (hM : 0 < M)
    (hBdef : B = ((x.enum.map fun p => p.2 * ((N : ℚ) - (p.1 : ℚ))).sum) / ((N : ℚ) * M)) :
    0 ≤ (if B = 0 then (0 : ℚ) else 1 + 1 / (N : ℚ) - 2 * B) ∧
    (if B = 0 then (0 : ℚ) else 1 + 1 / (N : ℚ) - 2 * B) < 1 + 1 / (N : ℚ) := by
  subst hlen
  subst hBdef
  have hlenQ : (0 : ℚ) < (x.length : ℚ) := by exact_mod_cast hNpos
  have hden : (0 : ℚ) < (x.length : ℚ) * M := mul_pos hlenQ hM
  -- the numerator as an indexed sum over positions
  have hT : ((x.enum.map fun p => p.2 * ((x.length : ℚ) - (p.1 : ℚ))).sum)
      = ∑ i : Fin x.length, x.get i * ((x.length : ℚ) - ((i : ℕ) : ℚ)) := by
    rw [sum_enum_weights,
      ← Fin.sum_univ_eq_sum_range (fun i => x.getD i 0 * ((x.length : ℚ) - (i : ℚ)))
        x.length]
    refine Finset.sum_congr rfl fun i _ => ?_
    rw [List.getD_eq_getElem x 0 i.isLt, List.get_eq_getElem]
  -- the numerator is non-negative
  have hTnn : 0 ≤ ((x.enum.map fun p => p.2 * ((x.length : ℚ) - (p.1 : ℚ))).sum) := by
    rw [hT]
    refine Finset.sum_nonneg fun i _ => mul_nonneg (hx _ (x.get_mem i.1 i.2)) ?_
    have hi : (((i : ℕ) : ℚ)) < (x.length : ℚ) := by exact_mod_cast i.isLt
    linarith
  -- ascending values antivary with descending weights
  have hanti : Antivary (fun i : Fin x.length => x.get i)
      (fun i : Fin x.length => ((x.length : ℚ) - ((i : ℕ) : ℚ))) := by
    intro i j hij
    have hji : (((j : ℕ) : ℚ)) < (((i : ℕ) : ℚ)) := by
      simp only at hij
      linarith
    have hji2 : ((j : ℕ)) < ((i : ℕ)) := by exact_mod_cast hji
    exact List.pairwise_iff_get.mp hsorted j i hji2
  have hsf : (∑ i : Fin x.length, x.get i) = x.sum := by
    conv_rhs => rw [← List.ofFn_get x]
    rw [List.sum_ofFn]
  have hsg : (∑ i : Fin x.length, ((x.length : ℚ) - ((i : ℕ) : ℚ)))
      = (x.length : ℚ) * ((x.length : ℚ) + 1) / 2 := by
    rw [Fin.sum_univ_eq_sum_range (fun i => (x.length : ℚ) - (i : ℚ)) x.length, sum_weights]
  have hcheb : (x.length : ℚ) * ((x.enum.map fun p =>
      p.2 * ((x.length : ℚ) - (p.1 : ℚ))).sum)
      ≤ x.sum * ((x.length : ℚ) * ((x.length : ℚ) + 1) / 2) := by
    have h := hanti.card_mul_sum_le_sum_mul_sum
    rw [Fintype.card_fin, hsf, hsg] at h
    rw [hT]
    exact h
  have hsum_nn : 0 ≤ x.sum := List.sum_nonneg hx
  -- the key estimate: twice the numerator is at most (N + 1) M
  have hT2 : 2 * ((x.enum.map fun p => p.2 * ((x.length : ℚ) - (p.1 : ℚ))).sum)
      ≤ ((x.length : ℚ) + 1) * M := by
    have h1 : (x.length : ℚ) * (2 * ((x.enum.map fun p =>
        p.2 * ((x.length : ℚ) - (p.1 : ℚ))).sum))
        ≤ (x.length : ℚ) * (((x.length : ℚ) + 1) * x.sum) := by
      nlinarith [hcheb]
    have h2 := le_of_mul_le_mul_left h1 hlenQ
    have h3 : ((x.length : ℚ) + 1) * x.sum ≤ ((x.length : ℚ) + 1) * M :=
      mul_le_mul_of_nonneg_left hsum (by linarith)
    linarith
  by_cases hB : ((x.enum.map fun p => p.2 * ((x.length : ℚ) - (p.1 : ℚ))).sum) /
      ((x.length : ℚ) * M) = 0
  · rw [if_pos hB]
    constructor
    · exact le_refl 0
    · have h4 : 0 < 1 / (x.length : ℚ) := by positivity
      linarith
  · rw [if_neg hB]
    have hBpos : 0 < ((x.enum.map fun p => p.2 * ((x.length : ℚ) - (p.1 : ℚ))).sum) /
        ((x.length : ℚ) * M) :=
      lt_of_le_of_ne (div_nonneg hTnn hden.le) (Ne.symm hB)
    have hBle : 2 * (((x.enum.map fun p => p.2 * ((x.length : ℚ) - (p.1 : ℚ))).sum) /
        ((x.length : ℚ) * M)) ≤ 1 + 1 / (x.length : ℚ) := by
      have heq : 2 * (((x.enum.map fun p => p.2 * ((x.length : ℚ) - (p.1 : ℚ))).sum) /
          ((x.length : ℚ) * M))
          = (2 * ((x.enum.map fun p => p.2 * ((x.length : ℚ) - (p.1 : ℚ))).sum)) /
            ((x.length : ℚ) * M) := by
        ring
      rw [heq, div_le_iff₀ hden]
      have hexp : (1 + 1 / (x.length : ℚ)) * ((x.length : ℚ) * M)
          = ((x.length : ℚ) + 1) * M := by
        field_simp
        ring
      rw [hexp]
      exact hT2
    constructor
    · linarith
    · linarith

/-- C3, amended: for every model with a non-empty population, non-negative
savings and wallets, and total money strictly greater than 0, the value
returned by `compute_gini` lies in the interval `[0, 1 + 1/N)` — not in
`[0, 1]`: values above `1` occur as soon as wallet money dominates savings,
since the denominator uses total money while the numerator sums only savings. -/
theorem compute_gini_bounds (model : MetricsModel)
    (hne : model.schedule.agents ≠ [])
    (hnn : ∀ a ∈ model.schedule.agents, 0 ≤ a.savings ∧ 0 ≤ a.wallet)
    (hM : 0 < get_total_money model) :
    ∃ g : ℚ, compute_gini model = Except.ok (PyFloat.finite g) ∧ 0 ≤ g ∧
      g < 1 + 1 / (model.schedule.agents.length : ℚ) := by
  have hN : 0 < model.schedule.agents.length := List.length_pos.mpr hne
  have hxlen : (List.insertionSort (· ≤ ·)
      (model.schedule.agents.map fun a => a.savings)).length
      = model.schedule.agents.length := by
    rw [List.length_insertionSort, List.length_map]
  have hperm := List.perm_insertionSort (· ≤ ·)
    (model.schedule.agents.map fun a => a.savings)
  have hxnn : ∀ q ∈ List.insertionSort (· ≤ ·)
      (model.schedule.agents.map fun a => a.savings), 0 ≤ q := by
    intro q hq
    rcases List.mem_map.mp (hperm.mem_iff.mp hq) with ⟨a, ha, rfl⟩
    exact (hnn a ha).1
  have hxsum : (List.insertionSort (· ≤ ·)
      (model.schedule.agents.map fun a => a.savings)).sum ≤ get_total_money model := by
    rw [hperm.sum_eq]
    have hw : 0 ≤ get_total_wallets model := by
      refine List.sum_nonneg fun q hq => ?_
      rcases List.mem_map.mp hq with ⟨a, ha, rfl⟩
      exact (hnn a ha).2
    have hs : (model.schedule.agents.map fun a => a.savings).sum
        = get_total_savings model := rfl
    rw [hs, get_total_money]
    linarith
  have hbounds := gini_value_bounds
    (List.insertionSort (· ≤ ·) (model.schedule.agents.map fun a => a.savings))
    model.schedule.agents.length (get_total_money model) _ hxlen hN
    (List.sorted_insertionSort (· ≤ ·) (model.schedule.agents.map fun a => a.savings))
    hxnn hxsum hM rfl
  exact ⟨_, compute_gini_eval model hne hM, hbounds.1, hbounds.2⟩

/-- Witness for the amended C3 theorem at a one-agent model with savings 1 and
no wallet money (the Gini value there is `0`). -/
theorem compute_gini_bounds_witness :
    ∃ g : ℚ, compute_gini simpleModel = Except.ok (PyFloat.finite g) ∧ 0 ≤ g ∧
      g < 1 + 1 / (simpleModel.schedule.agents.length : ℚ) :=
  compute_gini_bounds simpleModel (by simp [simpleModel])
    (by intro a ha; simp [simpleModel] at ha; simp [ha])
    (by norm_num [get_total_money, get_total_savings, get_total_wallets, simpleModel])

/-- A running-sum fold equals the sum of the mapped list. -/
theorem foldl_add_eq_sum (l : List Person) (f : Person → ℚ) :
    l.foldl (fun acc a => acc + f a) 0 = (l.map f).sum := by
  rw [List.sum_eq_foldl, List.foldl_map]

/-- On a non-empty population the mean is the spec mean and the radicand is
the spec population variance, which is non-negative. -/
theorem standart_deviation_sd_eq (model : MetricsModel)
    (h : model.schedule.agents ≠ []) :
    mean_money model = some (mean_spec model) ∧
    standart_deviation_sd model = some (variance_spec model) ∧
    0 ≤ variance_spec model := by
  have hN : ¬ model.schedule.agents.length = 0 := by
    simpa using (List.length_pos.mpr h).ne'
  have hmean : mean_money model = some (mean_spec model) := by
    rw [mean_money, if_neg hN, foldl_add_eq_sum model.schedule.agents fun a => a.savings]
    rfl
  refine ⟨hmean, ?_, ?_⟩
  · rw [standart_deviation_sd, hmean, Option.map_some',
      foldl_add_eq_sum model.schedule.agents fun a => (a.savings - mean_spec model) ^ 2]
    rfl
  · apply div_nonneg
    · exact List.sum_nonneg fun q hq => by
        rcases List.mem_map.mp hq with ⟨a, _, rfl⟩
        exact sq_nonneg _
    · exact Nat.cast_nonneg _

/-- C5: on a non-empty population, `mean_money` returns the population mean of
the savings values, and `standart_deviation` returns the square root of the
population variance (the sum of squared deviations divided by N, not N - 1). -/
theorem mean_sd_population (model : MetricsModel) (h : model.schedule.agents ≠ []) :
    mean_money model = some (get_total_savings model / (model.schedule.agents.length : ℚ)) ∧
    standart_deviation model = some ((Real.sqrt ((variance_spec model : ℚ) : ℝ) : ℝ) : ℂ) := by
  obtain ⟨hmean, hsd, hnn⟩ := standart_deviation_sd_eq model h
  refine ⟨hmean, ?_⟩
  rw [standart_deviation, hsd, Option.map_some', cmath_sqrt, if_pos hnn]

/-- Witness for C5 at a one-agent model with savings 1. -/
theorem mean_sd_population_witness :
    mean_money simpleModel =
      some (get_total_savings simpleModel / (simpleModel.schedule.agents.length : ℚ)) ∧
    standart_deviation simpleModel =
      some ((Real.sqrt ((variance_spec simpleModel : ℚ) : ℝ) : ℝ) : ℂ) :=
  mean_sd_population simpleModel (by simp [simpleModel])

/-- C10: on a non-empty population `standart_deviation` returns a complex
value (it applies `cmath.sqrt`), whose imaginary part is `0` and whose real
part is the non-negative population standard deviation of the savings. -/
theorem standart_deviation_complex (model : MetricsModel)
    (h : model.schedule.agents ≠ []) :
    ∃ c : ℂ, standart_deviation model = some c ∧ c.im = 0 ∧
      c.re = Real.sqrt ((variance_spec model : ℚ) : ℝ) ∧ 0 ≤ c.re := by
  obtain ⟨_, hsd, hnn⟩ := standart_deviation_sd_eq model h
  refine ⟨((Real.sqrt ((variance_spec model : ℚ) : ℝ) : ℝ) : ℂ), ?_, ?_, ?_, ?_⟩
  · rw [standart_deviation, hsd, Option.map_some', cmath_sqrt, if_pos hnn]
  · exact Complex.ofReal_im _
  · exact Complex.ofReal_re _
  · rw [Complex.ofReal_re]
    exact Real.sqrt_nonneg _

/-- Witness for C10 at a one-agent model with savings 1. -/
theorem standart_deviation_complex_witness :
    ∃ c : ℂ, standart_deviation simpleModel = some c ∧ c.im = 0 ∧
      c.re = Real.sqrt ((variance_spec simpleModel : ℚ) : ℝ) ∧ 0 ≤ c.re :=
  standart_deviation_complex simpleModel (by simp [simpleModel])

/-- One activation never changes the number of agents: every branch of the
Person step updates the agent list only through `List.set`. -/
theorem personStep_length (m : BankReservesModel) (i : ℕ) :
    (personStep m i).agents.length = m.agents.length := by
  unfold personStep
  cases hm : m.agents.get? i with
  | none => rfl
  | some a =>
    dsimp only
    split
    all_goals try split
    all_goals try split
    all_goals try split
    all_goals try split
    all_goals simp [List.length_set]

/-- Folding activations over any activation order preserves the number of
agents. -/
theorem foldl_personStep_length (order : List ℕ) (m : BankReservesModel) :
    (order.foldl personStep m).agents.length = m.agents.length := by
  induction order generalizing m with
  | nil => rfl
  | cons j t ih => rw [List.foldl_cons, ih, personStep_length]

/-- A scheduler tick preserves the number of agents. -/
theorem step_length (m : BankReservesModel) :
    m.step.agents.length = m.agents.length := by
  unfold BankReservesModel.step
  rw [foldl_personStep_length]

/-- C7: initialization creates exactly `init_people` Person agents, the grid
records every agent at its chosen position, one `step` neither creates nor
destroys agents, and hence the population size stays `init_people` after
every number of steps.  The Person step and the scheduler are modelled from
the spec, since they live outside this repository. -/
theorem population_fixed (c : ℕ) (p : ModelParams) (r : ℕ → ℕ) (n : ℕ) :
    (initModel c p r).1.agents.length = p.init_people ∧
    (initModel c p r).1.grid
      = (initModel c p r).1.agents.map (fun a => (a.unique_id, a.pos.1, a.pos.2)) ∧
    (∀ m : BankReservesModel, m.step.agents.length = m.agents.length) ∧
    (BankReservesModel.step^[n] (initModel c p r).1).agents.length = p.init_people := by
  have hinit : (initModel c p r).1.agents.length = p.init_people := by
    simp [initModel]
  refine ⟨hinit, rfl, step_length, ?_⟩
  induction n with
  | zero => exact hinit
  | succ k ih => rw [Function.iterate_succ_apply', step_length, ih]

/-- C9: calling `run_model` on a freshly constructed model fails with
`AttributeError`: `__init__` never assigns `run_time` and no other code path
does, so the `range(self.run_time)` lookup fails and `run_model` can never
complete normally. -/
theorem run_model_attribute_error (c : ℕ) (p : ModelParams) (r : ℕ → ℕ) :
    run_model (initModel c p r).1 = Except.error PyExc.attributeError := rfl

/-- The uids of a construction sequence starting at counter `c` are
`c, c + 1, ...` in order. -/
theorem map_uid_constructFrom (ps : ℕ → ModelParams) (rs : ℕ → ℕ → ℕ) :
    ∀ (k c : ℕ), (constructFrom ps rs c k).map BankReservesModel.uid
      = (List.range k).map (c + ·) := by
  intro k
  induction k with
  | zero => intro c; rfl
  | succ n ih =>
    intro c
    rw [constructFrom, List.map_cons, ih (c + 1), List.range_succ_eq_map, List.map_cons,
      List.map_map]
    congr 1
    refine List.map_congr_left fun y _ => ?_
    simp only [Function.comp_apply]
    omega

/-- Indexing with a fallback commutes with taking uids. -/
theorem getD_map_uid (l : List BankReservesModel) (j : ℕ) :
    (l.map BankReservesModel.uid).getD j fallbackModel.uid = (l.getD j fallbackModel).uid := by
  by_cases hj : j < l.length
  · rw [List.getD_eq_getElem _ _ (by simpa using hj), List.getD_eq_getElem _ _ hj,
      List.getElem_map]
  · rw [List.getD_eq_default _ _ (by simpa using Nat.le_of_not_lt hj),
      List.getD_eq_default _ _ (Nat.le_of_not_lt hj)]

/-- C6: within one process the class-wide `id_gen` counter starts at 1 and is
shared and never reset, so the uid sequence of the constructed models is
`1, 2, 3, ...`: the k-th constructed model (1-based) has uid k, and the uids
are strictly increasing, hence pairwise distinct, in construction order,
whatever the parameters of each trial are. -/
theorem uid_sequence (ps : ℕ → ModelParams) (rs : ℕ → ℕ → ℕ) (k : ℕ) :
    (constructRun ps rs k).map BankReservesModel.uid = (List.range k).map (· + 1) ∧
    (∀ j, j < k → ((constructRun ps rs k).getD j fallbackModel).uid = j + 1) ∧
    ((constructRun ps rs k).map BankReservesModel.uid).Pairwise (· < ·) := by
  have hm : (constructRun ps rs k).map BankReservesModel.uid
      = (List.range k).map (1 + ·) := map_uid_constructFrom ps rs k 1
  have hm1 : (constructRun ps rs k).map BankReservesModel.uid
      = (List.range k).map (· + 1) := by
    rw [hm]
    exact List.map_congr_left fun y _ => by omega
  refine ⟨hm1, ?_, ?_⟩
  · intro j hj
    have hlen : (constructRun ps rs k).length = k := by
      have hcong := congrArg List.length hm1
      simpa using hcong
    have hD : ((constructRun ps rs k).map BankReservesModel.uid).getD j
        fallbackModel.uid = j + 1 := by
      rw [hm1, List.getD_eq_getElem _ _ (by simpa using hj), List.getElem_map,
        List.getElem_range]
    rw [getD_map_uid] at hD
    exact hD
  · rw [hm1]
    exact (List.pairwise_lt_range k).map _ fun a b hab => by omega

/-- Witness for C6: three constructions with default parameters receive uids
1, 2, 3; at index 2 (0-based) the uid is 3. -/
theorem uid_sequence_witness :
    (constructRun (fun _ => {}) (fun _ _ => 0) 3).map BankReservesModel.uid
      = (List.range 3).map (· + 1) ∧
    ((constructRun (fun _ => {}) (fun _ _ => 0) 3).getD 2 fallbackModel).uid = 3 ∧
    ((constructRun (fun _ => {}) (fun _ _ => 0) 3).map
      BankReservesModel.uid).Pairwise (· < ·) :=
  ⟨(uid_sequence (fun _ => {}) (fun _ _ => 0) 3).1,
    (uid_sequence (fun _ => {}) (fun _ _ => 0) 3).2.1 2 (by norm_num),
    (uid_sequence (fun _ => {}) (fun _ _ => 0) 3).2.2⟩

/-- C8: with the reserve percent in `[0, 100]` and the reserve invariant
holding, every transaction the bank authorizes preserves
`total_loans + total_deposits * reserve_percent / 100 ≤ total_deposits`,
and a loan request exceeding the lendable capacity is granted exactly the
remaining capacity when that is positive and nothing otherwise.  Modelled
from the spec (§4.2): the `Bank` class is not part of this repository. -/
theorem bank_reserve_invariant (b : Bank) (hrp0 : 0 ≤ b.reserve_percent)
    (hrp1 : b.reserve_percent ≤ 100) (hinv : b.reserve_invariant) :
    (∀ a : ℚ, 0 ≤ a → (b.deposit a).reserve_invariant) ∧
    (∀ a : ℚ, (b.request_loan a).2.reserve_invariant) ∧
    (∀ a pl : ℚ, 0 ≤ a → 0 ≤ pl → (b.repay_loan pl a).2.reserve_invariant) ∧
    (∀ a : ℚ, b.capacity < a →
      (b.request_loan a).1 = if 0 < b.capacity then b.capacity else 0) := by
  unfold Bank.reserve_invariant at hinv
  refine ⟨?_, ?_, ?_, ?_⟩
  · intro a ha
    unfold Bank.deposit Bank.reserve_invariant
    dsimp only
    have hmul : a * b.reserve_percent ≤ a * 100 :=
      mul_le_mul_of_nonneg_left hrp1 ha
    nlinarith
  · intro a
    unfold Bank.request_loan Bank.reserve_invariant
    dsimp only
    by_cases hc : b.capacity ≤ 0
    · rw [if_pos hc]
      simpa using hinv
    · rw [if_neg hc]
      have hmin : min a b.capacity ≤ b.capacity := min_le_right _ _
      unfold Bank.capacity Bank.reserves_required at hmin ⊢
      linarith
  · intro a pl ha hpl
    unfold Bank.repay_loan Bank.reserve_invariant
    dsimp only
    have hmin : 0 ≤ min a pl := le_min ha hpl
    linarith
  · intro a hca
    unfold Bank.request_loan
    dsimp only
    by_cases hc : b.capacity ≤ 0
    · rw [if_pos hc, if_neg (by linarith)]
    · rw [if_neg hc, if_pos (by linarith), min_eq_right hca.le]

/-- Witness for C8 at a bank with reserve percent 50, deposits 100 and loans
10, and concrete transaction amounts. -/
theorem bank_reserve_invariant_witness :
    (∀ a : ℚ, 0 ≤ a → ((Bank.mk 50 100 10).deposit a).reserve_invariant) ∧
    (∀ a : ℚ, ((Bank.mk 50 100 10).request_loan a).2.reserve_invariant) ∧
    (∀ a pl : ℚ, 0 ≤ a → 0 ≤ pl →
      ((Bank.mk 50 100 10).repay_loan pl a).2.reserve_invariant) ∧
    (∀ a : ℚ, (Bank.mk 50 100 10).capacity < a →
      ((Bank.mk 50 100 10).request_loan a).1 =
        if 0 < (Bank.mk 50 100 10).capacity then (Bank.mk 50 100 10).capacity else 0) :=
  bank_reserve_invariant (Bank.mk 50 100 10) (by norm_num) (by norm_num)
    (by unfold Bank.reserve_invariant; norm_num)

end BankSim
